import Mathlib

/-!
# Verification of the mixture-of-diffusers tiling pipeline

Shallow embedding of `src/diffusiontools/tiling.py`
(`StableDiffusionTilingPipeline` and its coordinate-transform helpers),
together with theorems settling the spec claims about it.

Conventions of the embedding:
* Pixel and latent coordinates are natural numbers (all coordinates produced
  by the pipeline on valid inputs are non-negative Python ints).
* Tensors over the spatial canvas are modelled as functions `ℕ → ℕ → ℝ`
  (the batch and channel dimensions of the source, which are never mixed with
  the spatial ones, are dropped).
* A call `torch.randn(shape, generator=manual_seed(s))` is modelled by an
  abstract noise family `noise : ℕ → ℕ → ℕ → ℝ`, mapping a seed and a
  relative (row, col) offset inside the freshly drawn tensor to its value.
* Python exceptions raised before the denoising loop are modelled with
  `Except String` / `Option`.
-/

/-- Embedding of `_tile2pixel_indices` from `tiling.py`:
pixel extent `(px_row_init, px_row_end, px_col_init, px_col_end)` of tile
`(tile_row, tile_col)`. -/
def _tile2pixel_indices (tile_row tile_col tile_width tile_height
    tile_row_overlap tile_col_overlap : ℕ) : ℕ × ℕ × ℕ × ℕ :=
  let px_row_init := if tile_row = 0 then 0 else tile_row * (tile_height - tile_row_overlap)
  let px_col_init := if tile_col = 0 then 0 else tile_col * (tile_width - tile_col_overlap)
  (px_row_init, px_row_init + tile_height, px_col_init, px_col_init + tile_width)

/-- Embedding of `_pixel2latent_indices` from `tiling.py`: floor-divide every pixel
coordinate by the fixed downscale factor 8. -/
def _pixel2latent_indices (px_row_init px_row_end px_col_init px_col_end : ℕ) :
    ℕ × ℕ × ℕ × ℕ :=
  (px_row_init / 8, px_row_end / 8, px_col_init / 8, px_col_end / 8)

/-- Embedding of `_tile2latent_indices` from `tiling.py`: the tile's inclusive latent
region. -/
def _tile2latent_indices (tile_row tile_col tile_width tile_height
    tile_row_overlap tile_col_overlap : ℕ) : ℕ × ℕ × ℕ × ℕ :=
  let p := _tile2pixel_indices tile_row tile_col tile_width tile_height
    tile_row_overlap tile_col_overlap
  _pixel2latent_indices p.1 p.2.1 p.2.2.1 p.2.2.2

/-- Subtraction of half-open integer segments, modelling
`ligo.segments.segment.__sub__` as used by `_tile2latent_exclusive_indices`:
the part of `s` not contained in `o`.  When the difference would consist of
two disjoint pieces the library raises `ValueError`; that case is `none`.
When `s` is contained in `o` the library produces a degenerate (empty)
segment. -/
def segSub (s o : ℕ × ℕ) : Option (ℕ × ℕ) :=
  if s.2 ≤ o.1 ∨ o.2 ≤ s.1 then some s
  else if s.1 < o.1 ∧ o.2 < s.2 then none
  else if s.1 < o.1 then some (s.1, o.1)
  else some (o.2, s.2)

/-- Row-major list of all grid positions `(row, column)`. -/
def gridPairs (rows columns : ℕ) : List (ℕ × ℕ) :=
  (List.range rows).flatMap fun row => (List.range columns).map fun column => (row, column)

/-- Embedding of `_tile2latent_exclusive_indices` from `tiling.py`: start from the tile's
inclusive latent region and, for every grid position `(row, column)` with
`row ≠ tile_row` **and** `column ≠ tile_col` (the guard on line 299 of the
source), subtract that tile's inclusive row interval from the running row
segment and its inclusive column interval from the running column segment.
`none` models the `ValueError` raised by the segment library when a
difference is not a single segment. -/
def _tile2latent_exclusive_indices (tile_row tile_col tile_width tile_height
    tile_row_overlap tile_col_overlap rows columns : ℕ) :
    Option (ℕ × ℕ × ℕ × ℕ) := do
  let r := _tile2latent_indices tile_row tile_col tile_width tile_height
    tile_row_overlap tile_col_overlap
  let st ← (gridPairs rows columns).foldlM (fun (st : (ℕ × ℕ) × (ℕ × ℕ)) rc =>
    if rc.1 ≠ tile_row ∧ rc.2 ≠ tile_col then do
      let q := _tile2latent_indices rc.1 rc.2 tile_width tile_height
        tile_row_overlap tile_col_overlap
      let row_segment ← segSub st.1 (q.1, q.2.1)
      let col_segment ← segSub st.2 (q.2.2.1, q.2.2.2)
      pure (row_segment, col_segment)
    else pure st) ((r.1, r.2.1), (r.2.2.1, r.2.2.2))
  pure (st.1.1, st.1.2, st.2.1, st.2.2)

/-- The exclusive-region computation exactly as claim C1 words it: subtract
the inclusive region of **every** other grid position (every `(row, column)`
with `(row, column) ≠ (tile_row, tile_col)`) from the row interval and the
column interval independently.  Written from the spec's words, to be compared
with `_tile2latent_exclusive_indices`. -/
def exclusiveAllOtherTiles (tile_row tile_col tile_width tile_height
    tile_row_overlap tile_col_overlap rows columns : ℕ) :
    Option (ℕ × ℕ × ℕ × ℕ) := do
  let r := _tile2latent_indices tile_row tile_col tile_width tile_height
    tile_row_overlap tile_col_overlap
  let st ← (gridPairs rows columns).foldlM (fun (st : (ℕ × ℕ) × (ℕ × ℕ)) rc =>
    if rc ≠ (tile_row, tile_col) then do
      let q := _tile2latent_indices rc.1 rc.2 tile_width tile_height
        tile_row_overlap tile_col_overlap
      let row_segment ← segSub st.1 (q.1, q.2.1)
      let col_segment ← segSub st.2 (q.2.2.1, q.2.2.2)
      pure (row_segment, col_segment)
    else pure st) ((r.1, r.2.1), (r.2.2.1, r.2.2.2))
  pure (st.1.1, st.1.2, st.2.1, st.2.2)

/-- Embedding of `StableDiffusionTilingPipeline._gaussian_weights` from `tiling.py`, one
entry of the mask: `weights[y][x] = y_probs[y] * x_probs[x]` (the outer
product of the two 1D Gaussian profiles), with
`x_probs[x] = exp(-(x-midx)^2/(latent_width^2)/(2*var)) / sqrt(2*pi*var)`
where `midx = (latent_width - 1)/2`, and
`y_probs[y] = exp(-(y-midy)^2/(latent_height^2)/(2*var)) / sqrt(2*pi*var)`
where `midy = latent_height/2`; `var = 0.01`.  The source evaluates these in
floating point; the embedding uses exact real arithmetic. -/
noncomputable def _gaussian_weights (tile_width tile_height : ℕ) (y x : ℕ) : ℝ :=
  let latent_width : ℝ := (tile_width / 8 : ℕ)
  let latent_height : ℝ := (tile_height / 8 : ℕ)
  let var : ℝ := 0.01
  let midx : ℝ := (latent_width - 1) / 2
  let midy : ℝ := latent_height / 2
  (Real.exp (-((y : ℝ) - midy) * ((y : ℝ) - midy) / (latent_height * latent_height) / (2 * var)) /
      Real.sqrt (2 * Real.pi * var)) *
    (Real.exp (-((x : ℝ) - midx) * ((x : ℝ) - midx) / (latent_width * latent_width) / (2 * var)) /
      Real.sqrt (2 * Real.pi * var))

/-- Value of the `contributors` (weight-sum) buffer at latent position
`(y, x)` after the per-tile accumulation loop of one denoising step
(lines 209–216 of `tiling.py`): the sum, over every grid tile whose
inclusive latent region contains the position, of the blend-mask weight at
the position's offset inside that tile. -/
noncomputable def contributors (tile_width tile_height tile_row_overlap tile_col_overlap
    grid_rows grid_cols : ℕ) (y x : ℕ) : ℝ :=
  ∑ row ∈ Finset.range grid_rows, ∑ col ∈ Finset.range grid_cols,
    (let r := _tile2latent_indices row col tile_width tile_height
        tile_row_overlap tile_col_overlap
    if r.1 ≤ y ∧ y < r.2.1 ∧ r.2.2.1 ≤ x ∧ x < r.2.2.2 then
      _gaussian_weights tile_width tile_height (y - r.1) (x - r.2.2.1)
    else 0)

/-- The guidance scale used for tile `(row, col)` (line 204 of `tiling.py`):
`guidance_scale` if `guidance_scale_tiles` is `None` or its entry for the
tile is `None`, else that entry. -/
def guidanceFor (guidance_scale : ℝ) (guidance_scale_tiles : Option (ℕ → ℕ → Option ℝ))
    (row col : ℕ) : ℝ :=
  match guidance_scale_tiles with
  | none => guidance_scale
  | some g =>
    match g row col with
    | none => guidance_scale
    | some v => v

/-- Classifier-free-guidance combination for one tile (line 205 of
`tiling.py`): `noise_pred_uncond + guidance * (noise_pred_text -
noise_pred_uncond)`. -/
def combinedNoisePred (guidance_scale : ℝ)
    (guidance_scale_tiles : Option (ℕ → ℕ → Option ℝ)) (row col : ℕ)
    (noise_pred_uncond noise_pred_text : ℝ) : ℝ :=
  noise_pred_uncond +
    guidanceFor guidance_scale guidance_scale_tiles row col *
      (noise_pred_text - noise_pred_uncond)

/-- One row of the per-tile inference loop (lines 188–207 of `tiling.py`).
The denoising network is invoked for every column (producing
`pred_uncond`/`pred_text` when the input was duplicated for guidance, and
the single prediction `pred_single` otherwise), but the code appends the
tile's prediction to `noise_preds_row` only inside the
`if do_classifier_free_guidance:` block. -/
def noisePredsRow (do_classifier_free_guidance : Bool) (guidance_scale : ℝ)
    (guidance_scale_tiles : Option (ℕ → ℕ → Option ℝ))
    (pred_uncond pred_text : ℕ → ℕ → ℝ) (row grid_cols : ℕ) : List ℝ :=
  (List.range grid_cols).foldl (fun noise_preds_row col =>
    if do_classifier_free_guidance then
      noise_preds_row ++ [combinedNoisePred guidance_scale guidance_scale_tiles row col
        (pred_uncond row col) (pred_text row col)]
    else noise_preds_row) []

/-- The full `noise_preds` list of lists built by the per-tile inference
loop of one denoising step. -/
def noisePreds (do_classifier_free_guidance : Bool) (guidance_scale : ℝ)
    (guidance_scale_tiles : Option (ℕ → ℕ → Option ℝ))
    (pred_uncond pred_text : ℕ → ℕ → ℝ) (grid_rows grid_cols : ℕ) : List (List ℝ) :=
  (List.range grid_rows).foldl (fun acc row =>
    acc ++ [noisePredsRow do_classifier_free_guidance guidance_scale
      guidance_scale_tiles pred_uncond pred_text row grid_cols]) []

/-- The stitching loop of one denoising step (lines 209–216 of `tiling.py`):
for every grid tile it reads `noise_preds[row][col]` and accumulates
`prediction * tile_weights` into the canvas-shaped prediction-sum buffer at
the tile's inclusive latent region.  Reading a missing entry raises
`IndexError` in Python; that is modelled by `none`.  `tile_weights` is the
blend mask (`_gaussian_weights` in the pipeline, kept as a parameter). -/
def stitchNoisePreds (preds : List (List ℝ)) (tile_weights : ℕ → ℕ → ℝ)
    (tile_width tile_height tile_row_overlap tile_col_overlap
      grid_rows grid_cols : ℕ) : Option (ℕ → ℕ → ℝ) :=
  (List.range grid_rows).foldlM (fun acc row =>
    (List.range grid_cols).foldlM (fun acc2 col =>
      match (preds.get? row).bind (fun r => r.get? col) with
      | none => none
      | some p =>
        let r := _tile2latent_indices row col tile_width tile_height
          tile_row_overlap tile_col_overlap
        some (fun y x =>
          if r.1 ≤ y ∧ y < r.2.1 ∧ r.2.2.1 ≤ x ∧ x < r.2.2.2 then
            acc2 y x + p * tile_weights (y - r.1) (x - r.2.2.1)
          else acc2 y x)) acc)
    (fun _ _ => (0 : ℝ))

/-- The canvas latent, spatial part: a value for every latent position. -/
abbrev Canvas : Type := ℕ → ℕ → ℝ

/-- The `seed_tiles_mode` argument: a single string or a grid of strings. -/
inductive SeedTilesModeInput where
  | str (s : String)
  | grid (g : List (List String))

/-- The values of the `SeedTilesMode` enum: `["full", "exclusive"]`. -/
def seedTilesModeValues : List String := ["full", "exclusive"]

/-- Prompt-grid validation (lines 67–72 of `tiling.py`): `grid_rows =
len(prompt)`, `grid_cols = len(prompt[0])` (an `IndexError` if `prompt` is
empty), and every row must have `grid_cols` entries. -/
def validatePrompt (prompt : List (List String)) : Except String (ℕ × ℕ) :=
  match prompt.head? with
  | none => .error "IndexError"
  | some row0 =>
    if prompt.all (fun row => row.length = row0.length) then
      .ok (prompt.length, row0.length)
    else .error "All prompt rows must have the same number of prompt columns"

/-- Validation and expansion of `seed_tiles_mode` (lines 73–78 of `tiling.py`):
a bare string is expanded to a prompt-shaped grid, then every entry must be
one of the recognized mode values. -/
def validateSeedTilesMode (prompt : List (List String)) (m : SeedTilesModeInput) :
    Except String (List (List String)) :=
  let g := match m with
    | .str s => prompt.map (fun row => row.map (fun _ => s))
    | .grid g => g
  if g.all (fun row => row.all (fun mode => mode ∈ seedTilesModeValues)) then .ok g
  else .error "Seed tiles mode must be one of [full, exclusive]"

/-- In-place overwrite of the region `[r0, r1) × [c0, c1)` of a canvas with a
freshly drawn tensor `v` (indexed relative to the region's corner):
`latents[:, :, r0:r1, c0:c1] = v`. -/
def overwriteRegion (c : Canvas) (v : ℕ → ℕ → ℝ) (r0 r1 c0 c1 : ℕ) : Canvas :=
  fun y x => if r0 ≤ y ∧ y < r1 ∧ c0 ≤ x ∧ x < c1 then v (y - r0) (x - c0) else c y x

/-- The per-tile seeding loop (lines 98–110 of `tiling.py`): iterate the grid
in row-major order; for every tile whose `seed_tiles` entry is not `None`,
overwrite the tile's inclusive (mode `"full"`) or exclusive (otherwise)
latent region with noise drawn from a generator seeded with that entry.
Reading a missing list entry is an `IndexError`; a failed exclusive-region
computation is the segment library's `ValueError`. -/
def applySeedTiles (noise : ℕ → ℕ → ℕ → ℝ) (seed_tiles : Option (List (List (Option ℕ))))
    (modes : List (List String))
    (tile_width tile_height tile_row_overlap tile_col_overlap grid_rows grid_cols : ℕ)
    (c : Canvas) : Except String Canvas :=
  match seed_tiles with
  | none => .ok c
  | some st =>
    (List.range grid_rows).foldlM (fun cv row =>
      (List.range grid_cols).foldlM (fun cv2 col =>
        match (st.get? row).bind (fun r => r.get? col) with
        | none => .error "IndexError"
        | some none => .ok cv2
        | some (some seed_tile) =>
          match (modes.get? row).bind (fun r => r.get? col) with
          | none => .error "IndexError"
          | some mode =>
            if mode = "full" then
              let r := _tile2latent_indices row col tile_width tile_height
                tile_row_overlap tile_col_overlap
              .ok (overwriteRegion cv2 (fun y x => noise seed_tile y x)
                r.1 r.2.1 r.2.2.1 r.2.2.2)
            else
              match _tile2latent_exclusive_indices row col tile_width tile_height
                tile_row_overlap tile_col_overlap grid_rows grid_cols with
              | none => .error "ValueError"
              | some r =>
                .ok (overwriteRegion cv2 (fun y x => noise seed_tile y x)
                  r.1 r.2.1 r.2.2.1 r.2.2.2)) cv) c

/-- Bounds check for one reroll region, in latent coordinates, against the
latent canvas size: exactly when it fails, the freshly drawn tensor's shape
differs from the (clamped) canvas slice it is assigned into and the
assignment raises at runtime. -/
def rerollInBounds (r0 r1 c0 c1 latH latW : ℕ) : Prop :=
  r0 ≤ r1 ∧ c0 ≤ c1 ∧ r1 ≤ latH ∧ c1 ≤ latW

instance (r0 r1 c0 c1 latH latW : ℕ) : Decidable (rerollInBounds r0 r1 c0 c1 latH latW) := by
  unfold rerollInBounds; infer_instance

/-- The reroll loop (lines 112–117 of `tiling.py`): for each region in listed
order, convert its pixel rectangle to latent coordinates and overwrite the
canvas there with noise drawn from a generator seeded with the region's
seed.  A region whose latent rectangle does not fit inside the canvas makes
the slice assignment fail (shape mismatch), modelled as an error. -/
def applySeedRerollRegions (noise : ℕ → ℕ → ℕ → ℝ)
    (seed_reroll_regions : List (ℕ × ℕ × ℕ × ℕ × ℕ)) (latH latW : ℕ)
    (c : Canvas) : Except String Canvas :=
  seed_reroll_regions.foldlM (fun cv reg =>
    let r := _pixel2latent_indices reg.1 reg.2.1 reg.2.2.1 reg.2.2.2.1
    if rerollInBounds r.1 r.2.1 r.2.2.1 r.2.2.2 latH latW then
      .ok (overwriteRegion cv (fun y x => noise reg.2.2.2.2 y x) r.1 r.2.1 r.2.2.1 r.2.2.2)
    else .error "RuntimeError") c

/-- The reroll loop without its error channel: the pure sequence of region
overwrites, in listed order. -/
def applySeedRerollRegionsPure (noise : ℕ → ℕ → ℕ → ℝ)
    (seed_reroll_regions : List (ℕ × ℕ × ℕ × ℕ × ℕ)) (c : Canvas) : Canvas :=
  seed_reroll_regions.foldl (fun cv reg =>
    let r := _pixel2latent_indices reg.1 reg.2.1 reg.2.2.1 reg.2.2.2.1
    overwriteRegion cv (fun y x => noise reg.2.2.2.2 y x) r.1 r.2.1 r.2.2.1 r.2.2.2) c

/-- Everything the pipeline does before its first text-encoder or denoising
network call (lines 67–117 of `tiling.py`): input validation, the canvas-wide
initial noise draw, per-tile seed directives, then reroll regions. -/
def initializeLatents (noise : ℕ → ℕ → ℕ → ℝ) (prompt : List (List String))
    (tile_width tile_height tile_row_overlap tile_col_overlap seed : ℕ)
    (seed_tiles : Option (List (List (Option ℕ)))) (seed_tiles_mode : SeedTilesModeInput)
    (seed_reroll_regions : List (ℕ × ℕ × ℕ × ℕ × ℕ)) : Except String Canvas := do
  let dims ← validatePrompt prompt
  let modes ← validateSeedTilesMode prompt seed_tiles_mode
  let height := tile_height + (dims.1 - 1) * (tile_height - tile_row_overlap)
  let width := tile_width + (dims.2 - 1) * (tile_width - tile_col_overlap)
  let latents : Canvas := fun y x => noise seed y x
  let latents ← applySeedTiles noise seed_tiles modes tile_width tile_height
    tile_row_overlap tile_col_overlap dims.1 dims.2 latents
  applySeedRerollRegions noise seed_reroll_regions (height / 8) (width / 8) latents

/-- Observation of an initialization outcome at one latent position: `none`
when initialization failed. -/
def canvasAt (e : Except String Canvas) (y x : ℕ) : Option ℝ :=
  match e with
  | .error _ => none
  | .ok f => some (f y x)

/-- Whether initialization reached the end without raising. -/
def initSucceeds (e : Except String Canvas) : Bool :=
  match e with
  | .error _ => false
  | .ok _ => true

/-- Restriction of a seed-tile grid to the first `rows` rows and `cols`
columns. -/
def truncateGrid (rows cols : ℕ) (g : List (List (Option ℕ))) : List (List (Option ℕ)) :=
  (g.take rows).map (fun r => r.take cols)

/-- The pipeline's `batch_size` is hard-coded to 1 (line 81 of `tiling.py`). -/
def batch_size : ℕ := 1

/-- Embedding of `latents_shape` (lines 92–94 of `tiling.py`): `(batch_size,
unet.in_channels, height // 8, width // 8)` with `height = tile_height +
(grid_rows - 1) * (tile_height - tile_row_overlap)` and `width` symmetric. -/
def latentsShape (in_channels grid_rows grid_cols tile_width tile_height
    tile_row_overlap tile_col_overlap : ℕ) : ℕ × ℕ × ℕ × ℕ :=
  (batch_size, in_channels,
    (tile_height + (grid_rows - 1) * (tile_height - tile_row_overlap)) / 8,
    (tile_width + (grid_cols - 1) * (tile_width - tile_col_overlap)) / 8)

/-- Modelled from the spec: `decode_latents` lives in
`StableDiffusionExtrasMixin` (`diffusiontools/extrasmixin.py`), which is not
under `src/`; per the spec the autoencoder "decodes latents to images" and
the facade "returns the resulting image(s)", one image per element of the
latent batch.  Only the image count is modelled. -/
def decodedImageCount (latents_shape : ℕ × ℕ × ℕ × ℕ) : ℕ :=
  latents_shape.1

lemma _tile2pixel_row_init (row col tile_width tile_height tile_row_overlap tile_col_overlap : ℕ) :
    (_tile2pixel_indices row col tile_width tile_height tile_row_overlap tile_col_overlap).1 =
      row * (tile_height - tile_row_overlap) := by
  simp only [_tile2pixel_indices]
  split
  · simp [*]
  · rfl

lemma _tile2pixel_col_init (row col tile_width tile_height tile_row_overlap tile_col_overlap : ℕ) :
    (_tile2pixel_indices row col tile_width tile_height tile_row_overlap tile_col_overlap).2.2.1 =
      col * (tile_width - tile_col_overlap) := by
  simp only [_tile2pixel_indices]
  split
  · simp [*]
  · rfl

/-- Claim C9: for every grid position `(row, col)` and geometry with each
overlap strictly smaller than the corresponding tile size, the pixel extents
computed by `_tile2pixel_indices` determine `(row, col)` uniquely: dividing
the returned start offsets by the strides recovers the original indices, and
no other grid position yields the same extents. -/
theorem tile2pixel_roundtrip (tile_width tile_height tile_row_overlap tile_col_overlap
    row col : ℕ) (hr : tile_row_overlap < tile_height) (hc : tile_col_overlap < tile_width) :
    ((_tile2pixel_indices row col tile_width tile_height tile_row_overlap tile_col_overlap).1 /
        (tile_height - tile_row_overlap) = row ∧
      (_tile2pixel_indices row col tile_width tile_height tile_row_overlap
          tile_col_overlap).2.2.1 / (tile_width - tile_col_overlap) = col) ∧
    ∀ row' col',
      _tile2pixel_indices row' col' tile_width tile_height tile_row_overlap tile_col_overlap =
        _tile2pixel_indices row col tile_width tile_height tile_row_overlap tile_col_overlap →
      row' = row ∧ col' = col := by
  have hdr : 0 < tile_height - tile_row_overlap := Nat.sub_pos_of_lt hr
  have hdc : 0 < tile_width - tile_col_overlap := Nat.sub_pos_of_lt hc
  constructor
  · rw [_tile2pixel_row_init, _tile2pixel_col_init]
    exact ⟨Nat.mul_div_cancel row hdr, Nat.mul_div_cancel col hdc⟩
  · intro row' col' h
    have h1 : row' * (tile_height - tile_row_overlap) = row * (tile_height - tile_row_overlap) := by
      rw [← _tile2pixel_row_init row' col' tile_width tile_height tile_row_overlap tile_col_overlap,
        ← _tile2pixel_row_init row col tile_width tile_height tile_row_overlap tile_col_overlap, h]
    have h2 : col' * (tile_width - tile_col_overlap) = col * (tile_width - tile_col_overlap) := by
      rw [← _tile2pixel_col_init row' col' tile_width tile_height tile_row_overlap tile_col_overlap,
        ← _tile2pixel_col_init row col tile_width tile_height tile_row_overlap tile_col_overlap, h]
    exact ⟨Nat.eq_of_mul_eq_mul_right hdr h1, Nat.eq_of_mul_eq_mul_right hdc h2⟩

/-- Witness for C9 at the repository's default geometry (512×512 tiles,
overlap 256) and tile (1, 2). -/
theorem tile2pixel_roundtrip_witness :
    ((_tile2pixel_indices 1 2 512 512 256 256).1 / (512 - 256) = 1 ∧
      (_tile2pixel_indices 1 2 512 512 256 256).2.2.1 / (512 - 256) = 2) ∧
    ∀ row' col', _tile2pixel_indices row' col' 512 512 256 256 =
        _tile2pixel_indices 1 2 512 512 256 256 → row' = 1 ∧ col' = 2 :=
  tile2pixel_roundtrip 512 512 256 256 1 2 (by decide) (by decide)

/-- Claim C10: for every invocation, whatever the prompt-grid dimensions,
the canvas latent's batch dimension is 1 and exactly one image is decoded;
the grid only affects the spatial latent dimensions. -/
theorem batch_dimension_one (in_channels grid_rows grid_cols tile_width tile_height
    tile_row_overlap tile_col_overlap : ℕ) :
    (latentsShape in_channels grid_rows grid_cols tile_width tile_height
        tile_row_overlap tile_col_overlap).1 = 1 ∧
    decodedImageCount (latentsShape in_channels grid_rows grid_cols tile_width tile_height
        tile_row_overlap tile_col_overlap) = 1 :=
  ⟨rfl, rfl⟩

/-- Claim C5: with classifier-free guidance enabled, each tile's combined
prediction is `uncond + scale * (cond - uncond)` where `scale` is the tile's
entry of the per-tile guidance grid when that grid is supplied and the entry
is not `None`, and the pipeline-wide default otherwise; and the combination
for a tile depends only on that tile's own entry, never on another tile's. -/
theorem guidance_combination_per_tile (guidance_scale u t v : ℝ)
    (g : ℕ → ℕ → Option ℝ) (row col : ℕ) :
    combinedNoisePred guidance_scale none row col u t = u + guidance_scale * (t - u) ∧
    (g row col = none →
      combinedNoisePred guidance_scale (some g) row col u t = u + guidance_scale * (t - u)) ∧
    (g row col = some v →
      combinedNoisePred guidance_scale (some g) row col u t = u + v * (t - u)) ∧
    ∀ g' : ℕ → ℕ → Option ℝ, g' row col = g row col →
      combinedNoisePred guidance_scale (some g') row col u t =
        combinedNoisePred guidance_scale (some g) row col u t := by
  refine ⟨rfl, fun h => ?_, fun h => ?_, fun g' h => ?_⟩ <;>
    simp [combinedNoisePred, guidanceFor, h]

/-- Witness for C5: a tile with override 3 combines with scale 3, while with
no grid the default 7.5 is used. -/
theorem guidance_combination_per_tile_witness :
    combinedNoisePred 7.5 (some fun r c => if r = 0 ∧ c = 0 then some 3 else none) 0 0 2 5 =
      2 + 3 * (5 - 2) ∧
    combinedNoisePred 7.5 none 0 0 2 5 = 2 + 7.5 * (5 - 2) := by
  have h := guidance_combination_per_tile 7.5 2 5 3
    (fun r c => if r = 0 ∧ c = 0 then some 3 else none) 0 0
  exact ⟨h.2.2.1 (by simp), h.1⟩

/-- Claim C3 (code bug): with classifier-free guidance disabled the network
is still invoked once per tile on the single slice, but the tile prediction
is appended to `noise_preds` only inside the guidance branch, so the
stitching loop's read `noise_preds[row][col]` fails (IndexError) and the
step never completes: here, evaluated at a 1×1 grid with default geometry. -/
theorem no_cfg_step_fails :
    stitchNoisePreds (noisePreds false 1.0 none (fun _ _ => 0) (fun _ _ => 0) 1 1)
      (fun _ _ => 0) 512 512 256 256 1 1 = none := by
  rfl

lemma gaussian_reflect_x (tile_width tile_height y x : ℕ) (hx : x < tile_width / 8) :
    _gaussian_weights tile_width tile_height y (tile_width / 8 - 1 - x) =
      _gaussian_weights tile_width tile_height y x := by
  have h1 : 1 ≤ tile_width / 8 := Nat.one_le_iff_ne_zero.mpr (by omega)
  have hx' : x ≤ tile_width / 8 - 1 := by omega
  simp only [_gaussian_weights]
  congr 2
  rw [Nat.cast_sub hx', Nat.cast_sub h1]
  ring_nf

/-- Counterexample for C4, at tile size 16×16 (latent mask 2×2): the mask is
not symmetric under reflection along the vertical axis (row 0 differs from
its reflection row 1, because the vertical profile is centered at
`latent_height/2` instead of `(latent_height-1)/2`), and the two central
columns of a row tie, so the mask has no strict maximum at a single center
point. -/
theorem gaussian_mask_symmetry_counterexample :
    _gaussian_weights 16 16 0 0 ≠ _gaussian_weights 16 16 1 0 ∧
    _gaussian_weights 16 16 1 0 = _gaussian_weights 16 16 1 1 := by
  constructor
  · apply ne_of_lt
    simp only [_gaussian_weights]
    norm_num
    apply mul_lt_mul_of_pos_right ?_ (by positivity)
    have hs : (0:ℝ) < Real.sqrt 2 * Real.sqrt Real.pi * (Real.sqrt 100)⁻¹ := by positivity
    have h2 : Real.sqrt 100 * ((Real.sqrt Real.pi)⁻¹ * (Real.sqrt 2)⁻¹) =
        (Real.sqrt 2 * Real.sqrt Real.pi * (Real.sqrt 100)⁻¹)⁻¹ := by
      have hp : Real.sqrt Real.pi ≠ 0 := by positivity
      have h100 : Real.sqrt 100 ≠ 0 := by positivity
      have h2' : Real.sqrt 2 ≠ 0 := by positivity
      field_simp
      ring
    rw [h2, div_lt_iff₀ hs, inv_mul_cancel₀ (ne_of_gt hs)]
    rw [show (1:ℝ) = Real.exp 0 by simp]
    exact Real.exp_lt_exp.mpr (by norm_num)
  · have h := gaussian_reflect_x 16 16 1 0 (by norm_num)
    simpa using h.symm

/-- Claim C4 (amended): the blend weight mask `_gaussian_weights` is, for
every tile width and height, symmetric under reflection along the horizontal
(column) axis: entry `(y, latent_width - 1 - x)` equals entry `(y, x)`.
(The vertical-axis symmetry and the strict maximum at the tile center
claimed by the spec do not hold; see the counterexample.) -/
theorem gaussian_mask_x_symmetric (tile_width tile_height y x : ℕ)
    (hx : x < tile_width / 8) :
    _gaussian_weights tile_width tile_height y (tile_width / 8 - 1 - x) =
      _gaussian_weights tile_width tile_height y x :=
  gaussian_reflect_x tile_width tile_height y x hx

/-- Witness for C4 (amended) at tile size 16×16 and position (0, 0). -/
theorem gaussian_mask_x_symmetric_witness :
    _gaussian_weights 16 16 0 (16 / 8 - 1 - 0) = _gaussian_weights 16 16 0 0 :=
  gaussian_mask_x_symmetric 16 16 0 0 (by norm_num)

lemma _tile2pixel_eq (row col tile_width tile_height tile_row_overlap tile_col_overlap : ℕ) :
    _tile2pixel_indices row col tile_width tile_height tile_row_overlap tile_col_overlap =
      (row * (tile_height - tile_row_overlap),
        row * (tile_height - tile_row_overlap) + tile_height,
        col * (tile_width - tile_col_overlap),
        col * (tile_width - tile_col_overlap) + tile_width) := by
  simp only [_tile2pixel_indices]
  split <;> split <;> simp_all

lemma _tile2latent_eq (row col tile_width tile_height tile_row_overlap tile_col_overlap : ℕ)
    (h8h : 8 ∣ tile_height) (h8w : 8 ∣ tile_width)
    (h8r : 8 ∣ tile_row_overlap) (h8c : 8 ∣ tile_col_overlap) :
    _tile2latent_indices row col tile_width tile_height tile_row_overlap tile_col_overlap =
      (row * ((tile_height - tile_row_overlap) / 8),
        row * ((tile_height - tile_row_overlap) / 8) + tile_height / 8,
        col * ((tile_width - tile_col_overlap) / 8),
        col * ((tile_width - tile_col_overlap) / 8) + tile_width / 8) := by
  have hdr : 8 ∣ (tile_height - tile_row_overlap) := Nat.dvd_sub' h8h h8r
  have hdc : 8 ∣ (tile_width - tile_col_overlap) := Nat.dvd_sub' h8w h8c
  simp only [_tile2latent_indices, _tile2pixel_eq, _pixel2latent_indices, Prod.ext_iff]
  refine ⟨?_, ?_, ?_, ?_⟩
  · exact Nat.mul_div_assoc row hdr
  · rw [Nat.add_div_of_dvd_right (Dvd.dvd.mul_left hdr row), Nat.mul_div_assoc row hdr]
  · exact Nat.mul_div_assoc col hdc
  · rw [Nat.add_div_of_dvd_right (Dvd.dvd.mul_left hdc col), Nat.mul_div_assoc col hdc]

lemma gaussian_pos (tile_width tile_height y x : ℕ) :
    0 < _gaussian_weights tile_width tile_height y x := by
  simp only [_gaussian_weights]
  positivity

/-- One-dimensional coverage: consecutive tiles of length `T` placed with
stride `d ≤ T` cover `[0, T + (n-1)*d)`. -/
lemma cover1D (d T n y : ℕ) (hd : 0 < d) (hdT : d ≤ T) (hn : 0 < n)
    (hy : y < T + (n - 1) * d) : ∃ r, r < n ∧ r * d ≤ y ∧ y < r * d + T := by
  rcases le_or_lt (y / d) (n - 1) with h | h
  · refine ⟨y / d, by omega, Nat.div_mul_le_self y d, ?_⟩
    have h1 := Nat.div_add_mod y d
    have h2 := Nat.mod_lt y hd
    have h3 : y / d * d = d * (y / d) := Nat.mul_comm _ _
    omega
  · have h' : n ≤ y / d := by omega
    have h1 : n * d ≤ y / d * d := Nat.mul_le_mul_right d h'
    have h2 : y / d * d ≤ y := Nat.div_mul_le_self y d
    have h3 : (n - 1) * d + d = n * d := by
      have hn1 : n - 1 + 1 = n := by omega
      calc (n - 1) * d + d = (n - 1 + 1) * d := by ring
        _ = n * d := by rw [hn1]
    exact ⟨n - 1, by omega, by omega, by omega⟩

/-- Claim C2: for every valid grid (nonempty, overlaps strictly smaller than
tile sizes, tile sizes and overlaps multiples of 8), the weight-sum
(`contributors`) buffer accumulated over one denoising step is strictly
positive at every latent canvas position, so the normalization division
never divides by zero. -/
theorem contributors_pos (tile_width tile_height tile_row_overlap tile_col_overlap
    grid_rows grid_cols y x : ℕ)
    (h8h : 8 ∣ tile_height) (h8w : 8 ∣ tile_width)
    (h8r : 8 ∣ tile_row_overlap) (h8c : 8 ∣ tile_col_overlap)
    (hoh : tile_row_overlap < tile_height) (how : tile_col_overlap < tile_width)
    (hrows : 0 < grid_rows) (hcols : 0 < grid_cols)
    (hy : y < (tile_height + (grid_rows - 1) * (tile_height - tile_row_overlap)) / 8)
    (hx : x < (tile_width + (grid_cols - 1) * (tile_width - tile_col_overlap)) / 8) :
    0 < contributors tile_width tile_height tile_row_overlap tile_col_overlap
      grid_rows grid_cols y x := by
  have hdr : 8 ∣ (tile_height - tile_row_overlap) := Nat.dvd_sub' h8h h8r
  have hdc : 8 ∣ (tile_width - tile_col_overlap) := Nat.dvd_sub' h8w h8c
  have hd : 0 < (tile_height - tile_row_overlap) / 8 :=
    Nat.div_pos (Nat.le_of_dvd (by omega) hdr) (by norm_num)
  have hd' : 0 < (tile_width - tile_col_overlap) / 8 :=
    Nat.div_pos (Nat.le_of_dvd (by omega) hdc) (by norm_num)
  have hdT : (tile_height - tile_row_overlap) / 8 ≤ tile_height / 8 :=
    Nat.div_le_div_right (Nat.sub_le _ _)
  have hdT' : (tile_width - tile_col_overlap) / 8 ≤ tile_width / 8 :=
    Nat.div_le_div_right (Nat.sub_le _ _)
  rw [Nat.add_div_of_dvd_right h8h, Nat.mul_div_assoc _ hdr] at hy
  rw [Nat.add_div_of_dvd_right h8w, Nat.mul_div_assoc _ hdc] at hx
  obtain ⟨r, hrn, hr1, hr2⟩ :=
    cover1D ((tile_height - tile_row_overlap) / 8) (tile_height / 8) grid_rows y hd hdT hrows hy
  obtain ⟨c, hcn, hc1, hc2⟩ :=
    cover1D ((tile_width - tile_col_overlap) / 8) (tile_width / 8) grid_cols x hd' hdT' hcols hx
  unfold contributors
  apply Finset.sum_pos'
  · intro i _
    apply Finset.sum_nonneg
    intro j _
    dsimp only
    split
    · exact le_of_lt (gaussian_pos _ _ _ _)
    · exact le_rfl
  · refine ⟨r, Finset.mem_range.mpr hrn, Finset.sum_pos' ?_ ⟨c, Finset.mem_range.mpr hcn, ?_⟩⟩
    · intro j _
      dsimp only
      split
      · exact le_of_lt (gaussian_pos _ _ _ _)
      · exact le_rfl
    · rw [_tile2latent_eq r c tile_width tile_height tile_row_overlap tile_col_overlap
        h8h h8w h8r h8c]
      dsimp only
      rw [if_pos ⟨hr1, hr2, hc1, hc2⟩]
      exact gaussian_pos _ _ _ _

/-- Witness for C2: default 2×2 grid of 512×512 tiles with overlap 256, at
canvas latent position (0, 0). -/
theorem contributors_pos_witness :
    0 < contributors 512 512 256 256 2 2 0 0 :=
  contributors_pos 512 512 256 256 2 2 0 0 (by norm_num) (by norm_num) (by norm_num)
    (by norm_num) (by norm_num) (by norm_num) (by norm_num) (by norm_num)
    (by norm_num) (by norm_num)

lemma segSub_spec (L : ℕ) (s o : ℕ × ℕ) (ho : o.2 = o.1 + L) (hs : s.2 ≤ s.1 + L) :
    ∃ s' : ℕ × ℕ, segSub s o = some s' ∧ s'.2 ≤ s'.1 + L ∧
      Set.Ico s'.1 s'.2 = Set.Ico s.1 s.2 \ Set.Ico o.1 o.2 := by
  unfold segSub
  split
  · rename_i h
    refine ⟨s, rfl, hs, ?_⟩
    ext z
    simp only [Set.mem_Ico, Set.mem_diff]
    omega
  · rename_i h
    split
    · rename_i h2
      omega
    · rename_i h2
      split
      · rename_i h3
        refine ⟨(s.1, o.1), rfl, by omega, ?_⟩
        ext z
        simp only [Set.mem_Ico, Set.mem_diff]
        omega
      · rename_i h3
        refine ⟨(o.2, s.2), rfl, by omega, ?_⟩
        ext z
        simp only [Set.mem_Ico, Set.mem_diff]
        omega

lemma mem_gridPairs (rc : ℕ × ℕ) (rows columns : ℕ) :
    rc ∈ gridPairs rows columns ↔ rc.1 < rows ∧ rc.2 < columns := by
  obtain ⟨a, b⟩ := rc
  simp [gridPairs]

lemma exclusive_fold_spec (tile_row tile_col tile_width tile_height
    tile_row_overlap tile_col_overlap : ℕ)
    (h8h : 8 ∣ tile_height) (h8w : 8 ∣ tile_width)
    (h8r : 8 ∣ tile_row_overlap) (h8c : 8 ∣ tile_col_overlap)
    (l : List (ℕ × ℕ)) (st : (ℕ × ℕ) × (ℕ × ℕ))
    (hr : st.1.2 ≤ st.1.1 + tile_height / 8) (hc : st.2.2 ≤ st.2.1 + tile_width / 8) :
    ∃ st' : (ℕ × ℕ) × (ℕ × ℕ),
      (l.foldlM (fun (st : (ℕ × ℕ) × (ℕ × ℕ)) rc =>
        if rc.1 ≠ tile_row ∧ rc.2 ≠ tile_col then do
          let q := _tile2latent_indices rc.1 rc.2 tile_width tile_height
            tile_row_overlap tile_col_overlap
          let row_segment ← segSub st.1 (q.1, q.2.1)
          let col_segment ← segSub st.2 (q.2.2.1, q.2.2.2)
          pure (row_segment, col_segment)
        else pure st) st) = some st' ∧
      st'.1.2 ≤ st'.1.1 + tile_height / 8 ∧ st'.2.2 ≤ st'.2.1 + tile_width / 8 ∧
      Set.Ico st'.1.1 st'.1.2 = Set.Ico st.1.1 st.1.2 \
        {y | ∃ rc ∈ l, (rc.1 ≠ tile_row ∧ rc.2 ≠ tile_col) ∧
          (_tile2latent_indices rc.1 rc.2 tile_width tile_height
            tile_row_overlap tile_col_overlap).1 ≤ y ∧
          y < (_tile2latent_indices rc.1 rc.2 tile_width tile_height
            tile_row_overlap tile_col_overlap).2.1} ∧
      Set.Ico st'.2.1 st'.2.2 = Set.Ico st.2.1 st.2.2 \
        {x | ∃ rc ∈ l, (rc.1 ≠ tile_row ∧ rc.2 ≠ tile_col) ∧
          (_tile2latent_indices rc.1 rc.2 tile_width tile_height
            tile_row_overlap tile_col_overlap).2.2.1 ≤ x ∧
          x < (_tile2latent_indices rc.1 rc.2 tile_width tile_height
            tile_row_overlap tile_col_overlap).2.2.2} := by
  induction l generalizing st with
  | nil =>
    refine ⟨st, rfl, hr, hc, ?_, ?_⟩ <;> simp
  | cons a l ih =>
    rw [List.foldlM_cons]
    by_cases hcond : a.1 ≠ tile_row ∧ a.2 ≠ tile_col
    · rw [if_pos hcond]
      have hq := _tile2latent_eq a.1 a.2 tile_width tile_height tile_row_overlap
        tile_col_overlap h8h h8w h8r h8c
      obtain ⟨rs, hrs, hrsb, hrsset⟩ := segSub_spec (tile_height / 8) st.1
        ((_tile2latent_indices a.1 a.2 tile_width tile_height tile_row_overlap
          tile_col_overlap).1,
         (_tile2latent_indices a.1 a.2 tile_width tile_height tile_row_overlap
          tile_col_overlap).2.1) (by rw [hq]) hr
      obtain ⟨cs, hcs, hcsb, hcsset⟩ := segSub_spec (tile_width / 8) st.2
        ((_tile2latent_indices a.1 a.2 tile_width tile_height tile_row_overlap
          tile_col_overlap).2.2.1,
         (_tile2latent_indices a.1 a.2 tile_width tile_height tile_row_overlap
          tile_col_overlap).2.2.2) (by rw [hq]) hc
      obtain ⟨st', hfold, hb1, hb2, hset1, hset2⟩ := ih (rs, cs) hrsb hcsb
      refine ⟨st', ?_, hb1, hb2, ?_, ?_⟩
      · simpa [hrs, hcs] using hfold
      · rw [hset1]
        dsimp only
        rw [hrsset, Set.diff_diff]
        congr 1
        ext z
        simp only [Set.mem_Ico, Set.mem_union, Set.mem_setOf_eq, List.mem_cons]
        constructor
        · rintro (hz | ⟨rc, hm, h1, h2, h3⟩)
          · exact ⟨a, Or.inl rfl, hcond, hz.1, hz.2⟩
          · exact ⟨rc, Or.inr hm, h1, h2, h3⟩
        · rintro ⟨rc, (rfl | hm), h1, h2, h3⟩
          · exact Or.inl ⟨h2, h3⟩
          · exact Or.inr ⟨rc, hm, h1, h2, h3⟩
      · rw [hset2]
        dsimp only
        rw [hcsset, Set.diff_diff]
        congr 1
        ext z
        simp only [Set.mem_Ico, Set.mem_union, Set.mem_setOf_eq, List.mem_cons]
        constructor
        · rintro (hz | ⟨rc, hm, h1, h2, h3⟩)
          · exact ⟨a, Or.inl rfl, hcond, hz.1, hz.2⟩
          · exact ⟨rc, Or.inr hm, h1, h2, h3⟩
        · rintro ⟨rc, (rfl | hm), h1, h2, h3⟩
          · exact Or.inl ⟨h2, h3⟩
          · exact Or.inr ⟨rc, hm, h1, h2, h3⟩
    · rw [if_neg hcond]
      obtain ⟨st', hfold, hb1, hb2, hset1, hset2⟩ := ih st hr hc
      refine ⟨st', by simpa using hfold, hb1, hb2, ?_, ?_⟩
      · rw [hset1]
        congr 1
        ext z
        simp only [Set.mem_setOf_eq, List.mem_cons]
        constructor
        · rintro ⟨rc, hm, h1, h2, h3⟩
          exact ⟨rc, Or.inr hm, h1, h2, h3⟩
        · rintro ⟨rc, (rfl | hm), h1, h2, h3⟩
          · exact absurd h1 hcond
          · exact ⟨rc, hm, h1, h2, h3⟩
      · rw [hset2]
        congr 1
        ext z
        simp only [Set.mem_setOf_eq, List.mem_cons]
        constructor
        · rintro ⟨rc, hm, h1, h2, h3⟩
          exact ⟨rc, Or.inr hm, h1, h2, h3⟩
        · rintro ⟨rc, (rfl | hm), h1, h2, h3⟩
          · exact absurd h1 hcond
          · exact ⟨rc, hm, h1, h2, h3⟩

/-- Counterexample for C1: on a 1×2 grid with 512×512 tiles and overlap 256,
subtracting the region of *every* other tile (as the claim states, here the
procedure of `exclusiveAllOtherTiles`) also subtracts tile (0,1), whose row
interval equals tile (0,0)'s own, emptying the row segment — whereas the
code's guard `row != tile_row and column != tile_col` subtracts nothing, so
`_tile2latent_exclusive_indices` returns the full inclusive region. -/
theorem exclusive_indices_counterexample :
    exclusiveAllOtherTiles 0 0 512 512 256 256 1 2 ≠
      _tile2latent_exclusive_indices 0 0 512 512 256 256 1 2 := by
  decide

/-- Claim C1 (amended): for every grid and geometry with tile sizes and
overlaps multiples of 8 (and overlaps smaller than tile sizes), the
exclusive latent region returned by `_tile2latent_exclusive_indices` is the
tile's inclusive latent region minus, for every other tile differing from
`(tile_row, tile_col)` in **both** its row and its column index, that tile's
inclusive latent region — subtracted from the row interval and from the
column interval independently (stated as equalities of the resulting
half-open index sets per axis). -/
theorem exclusive_region_characterization (tile_row tile_col tile_width tile_height
    tile_row_overlap tile_col_overlap rows columns : ℕ)
    (h8h : 8 ∣ tile_height) (h8w : 8 ∣ tile_width)
    (h8r : 8 ∣ tile_row_overlap) (h8c : 8 ∣ tile_col_overlap)
    (_hoh : tile_row_overlap < tile_height) (_how : tile_col_overlap < tile_width) :
    ∃ res : ℕ × ℕ × ℕ × ℕ,
      _tile2latent_exclusive_indices tile_row tile_col tile_width tile_height
        tile_row_overlap tile_col_overlap rows columns = some res ∧
      Set.Ico res.1 res.2.1 =
        Set.Ico (_tile2latent_indices tile_row tile_col tile_width tile_height
            tile_row_overlap tile_col_overlap).1
          (_tile2latent_indices tile_row tile_col tile_width tile_height
            tile_row_overlap tile_col_overlap).2.1 \
        {y | ∃ r < rows, ∃ c < columns, (r ≠ tile_row ∧ c ≠ tile_col) ∧
          (_tile2latent_indices r c tile_width tile_height
            tile_row_overlap tile_col_overlap).1 ≤ y ∧
          y < (_tile2latent_indices r c tile_width tile_height
            tile_row_overlap tile_col_overlap).2.1} ∧
      Set.Ico res.2.2.1 res.2.2.2 =
        Set.Ico (_tile2latent_indices tile_row tile_col tile_width tile_height
            tile_row_overlap tile_col_overlap).2.2.1
          (_tile2latent_indices tile_row tile_col tile_width tile_height
            tile_row_overlap tile_col_overlap).2.2.2 \
        {x | ∃ r < rows, ∃ c < columns, (r ≠ tile_row ∧ c ≠ tile_col) ∧
          (_tile2latent_indices r c tile_width tile_height
            tile_row_overlap tile_col_overlap).2.2.1 ≤ x ∧
          x < (_tile2latent_indices r c tile_width tile_height
            tile_row_overlap tile_col_overlap).2.2.2} := by
  have hself := _tile2latent_eq tile_row tile_col tile_width tile_height
    tile_row_overlap tile_col_overlap h8h h8w h8r h8c
  obtain ⟨st', hfold, _, _, hset1, hset2⟩ := exclusive_fold_spec tile_row tile_col
    tile_width tile_height tile_row_overlap tile_col_overlap h8h h8w h8r h8c
    (gridPairs rows columns)
    (((_tile2latent_indices tile_row tile_col tile_width tile_height
        tile_row_overlap tile_col_overlap).1,
      (_tile2latent_indices tile_row tile_col tile_width tile_height
        tile_row_overlap tile_col_overlap).2.1),
     ((_tile2latent_indices tile_row tile_col tile_width tile_height
        tile_row_overlap tile_col_overlap).2.2.1,
      (_tile2latent_indices tile_row tile_col tile_width tile_height
        tile_row_overlap tile_col_overlap).2.2.2))
    (by rw [hself]) (by rw [hself])
  refine ⟨(st'.1.1, st'.1.2, st'.2.1, st'.2.2), ?_, ?_, ?_⟩
  · simp only [_tile2latent_exclusive_indices]
    rw [hfold]
    rfl
  · dsimp only
    rw [hset1]
    congr 1
    ext z
    simp only [Set.mem_setOf_eq, mem_gridPairs]
    constructor
    · rintro ⟨⟨rr, cc⟩, ⟨hm1, hm2⟩, h1, h2, h3⟩
      exact ⟨rr, hm1, cc, hm2, h1, h2, h3⟩
    · rintro ⟨rr, hm1, cc, hm2, h1, h2, h3⟩
      exact ⟨(rr, cc), ⟨hm1, hm2⟩, h1, h2, h3⟩
  · dsimp only
    rw [hset2]
    congr 1
    ext z
    simp only [Set.mem_setOf_eq, mem_gridPairs]
    constructor
    · rintro ⟨⟨rr, cc⟩, ⟨hm1, hm2⟩, h1, h2, h3⟩
      exact ⟨rr, hm1, cc, hm2, h1, h2, h3⟩
    · rintro ⟨rr, hm1, cc, hm2, h1, h2, h3⟩
      exact ⟨(rr, cc), ⟨hm1, hm2⟩, h1, h2, h3⟩

/-- Witness for C1 (amended) on a 2×2 grid with the default geometry. -/
theorem exclusive_region_characterization_witness :
    ∃ res : ℕ × ℕ × ℕ × ℕ,
      _tile2latent_exclusive_indices 0 0 512 512 256 256 2 2 = some res ∧
      Set.Ico res.1 res.2.1 =
        Set.Ico (_tile2latent_indices 0 0 512 512 256 256).1
          (_tile2latent_indices 0 0 512 512 256 256).2.1 \
        {y | ∃ r < 2, ∃ c < 2, (r ≠ 0 ∧ c ≠ 0) ∧
          (_tile2latent_indices r c 512 512 256 256).1 ≤ y ∧
          y < (_tile2latent_indices r c 512 512 256 256).2.1} ∧
      Set.Ico res.2.2.1 res.2.2.2 =
        Set.Ico (_tile2latent_indices 0 0 512 512 256 256).2.2.1
          (_tile2latent_indices 0 0 512 512 256 256).2.2.2 \
        {x | ∃ r < 2, ∃ c < 2, (r ≠ 0 ∧ c ≠ 0) ∧
          (_tile2latent_indices r c 512 512 256 256).2.2.1 ≤ x ∧
          x < (_tile2latent_indices r c 512 512 256 256).2.2.2} :=
  exclusive_region_characterization 0 0 512 512 256 256 2 2 (by norm_num)
    (by norm_num) (by norm_num) (by norm_num) (by norm_num) (by norm_num)

lemma exceptFoldlM_congr {α β : Type} (l : List α) (f g : β → α → Except String β)
    (h : ∀ x ∈ l, ∀ b, f b x = g b x) (b : β) : l.foldlM f b = l.foldlM g b := by
  induction l generalizing b with
  | nil => rfl
  | cons a l ih =>
    rw [List.foldlM_cons, List.foldlM_cons, h a (List.mem_cons_self a l) b]
    cases g b a with
    | error e => rfl
    | ok b' => exact ih (fun x hx b'' => h x (List.mem_cons_of_mem a hx) b'') b'

lemma validatePrompt_ok (prompt : List (List String)) (dims : ℕ × ℕ)
    (h : validatePrompt prompt = .ok dims) :
    dims = (prompt.length, (prompt.headD []).length) := by
  cases prompt with
  | nil => simp [validatePrompt] at h
  | cons row0 rest =>
    simp only [validatePrompt, List.head?] at h
    split at h
    · cases h
      rfl
    · cases h

lemma truncateGrid_lookup (rows cols : ℕ) (g : List (List (Option ℕ))) (r cc : ℕ)
    (hr : r < rows) (hc : cc < cols) :
    ((truncateGrid rows cols g).get? r).bind (fun row => row.get? cc) =
      (g.get? r).bind (fun row => row.get? cc) := by
  unfold truncateGrid
  rw [List.get?_map, List.get?_take hr]
  cases g.get? r with
  | none => rfl
  | some row =>
    show (row.take cols).get? cc = row.get? cc
    exact List.get?_take hc

lemma applySeedTiles_congr (noise : ℕ → ℕ → ℕ → ℝ) (st st' : List (List (Option ℕ)))
    (modes : List (List String))
    (tile_width tile_height tile_row_overlap tile_col_overlap grid_rows grid_cols : ℕ)
    (c : Canvas)
    (h : ∀ r < grid_rows, ∀ cc < grid_cols,
      (st.get? r).bind (fun row => row.get? cc) = (st'.get? r).bind (fun row => row.get? cc)) :
    applySeedTiles noise (some st) modes tile_width tile_height tile_row_overlap
      tile_col_overlap grid_rows grid_cols c =
    applySeedTiles noise (some st') modes tile_width tile_height tile_row_overlap
      tile_col_overlap grid_rows grid_cols c := by
  unfold applySeedTiles
  apply exceptFoldlM_congr
  intro row hrow cv
  apply exceptFoldlM_congr
  intro col hcol cv2
  rw [h row (List.mem_range.mp hrow) col (List.mem_range.mp hcol)]

/-- Claim C6 (amended): seed-tile directives at positions outside the valid
grid range are silently ignored rather than rejected: the whole pre-network
initialization behaves exactly as if the directive grid were truncated to
the prompt grid's dimensions, and no index validation is performed. -/
theorem out_of_grid_seed_directives_ignored (noise : ℕ → ℕ → ℕ → ℝ)
    (prompt : List (List String))
    (tile_width tile_height tile_row_overlap tile_col_overlap seed : ℕ)
    (st : List (List (Option ℕ))) (seed_tiles_mode : SeedTilesModeInput)
    (seed_reroll_regions : List (ℕ × ℕ × ℕ × ℕ × ℕ)) :
    initializeLatents noise prompt tile_width tile_height tile_row_overlap
      tile_col_overlap seed (some st) seed_tiles_mode seed_reroll_regions =
    initializeLatents noise prompt tile_width tile_height tile_row_overlap
      tile_col_overlap seed
      (some (truncateGrid prompt.length ((prompt.headD []).length) st))
      seed_tiles_mode seed_reroll_regions := by
  unfold initializeLatents
  cases hvp : validatePrompt prompt with
  | error e => rfl
  | ok dims =>
    have hdims := validatePrompt_ok prompt dims hvp
    subst hdims
    cases hvm : validateSeedTilesMode prompt seed_tiles_mode with
    | error e => rfl
    | ok modes =>
      show (applySeedTiles noise (some st) modes _ _ _ _ _ _ _) >>= _ =
        (applySeedTiles noise (some (truncateGrid _ _ st)) modes _ _ _ _ _ _ _) >>= _
      rw [applySeedTiles_congr noise st
        (truncateGrid prompt.length ((prompt.headD []).length) st) modes
        tile_width tile_height tile_row_overlap tile_col_overlap
        prompt.length ((prompt.headD []).length) _
        (fun r hr cc hcc => (truncateGrid_lookup _ _ st r cc hr hcc).symm)]

/-- Counterexample for C6: a 1×1 grid whose seed-tile list contains a
directive for the out-of-grid tile (0, 1); the pipeline does not fail before
its network calls — initialization completes successfully, the extra
directive being silently ignored. -/
theorem out_of_grid_seed_directive_no_failure :
    initSucceeds (initializeLatents (fun _ _ _ => 0) [["p"]] 512 512 256 256 0
      (some [[some 5, some 7]]) (.str "full") []) = true := by
  rfl

lemma overwriteRegion_tile01_val (c : Canvas) (v : ℕ → ℕ → ℝ)
    (tile_width tile_height tile_row_overlap tile_col_overlap y x : ℕ)
    (hy : y < tile_height / 8)
    (hx1 : (tile_width - tile_col_overlap) / 8 ≤ x) (hx2 : x < tile_width / 8) :
    overwriteRegion c v
      (_tile2latent_indices 0 1 tile_width tile_height tile_row_overlap tile_col_overlap).1
      (_tile2latent_indices 0 1 tile_width tile_height tile_row_overlap tile_col_overlap).2.1
      (_tile2latent_indices 0 1 tile_width tile_height tile_row_overlap tile_col_overlap).2.2.1
      (_tile2latent_indices 0 1 tile_width tile_height tile_row_overlap tile_col_overlap).2.2.2
      y x = v y (x - (tile_width - tile_col_overlap) / 8) := by
  have hcond : (_tile2latent_indices 0 1 tile_width tile_height tile_row_overlap
        tile_col_overlap).1 ≤ y ∧
      y < (_tile2latent_indices 0 1 tile_width tile_height tile_row_overlap
        tile_col_overlap).2.1 ∧
      (_tile2latent_indices 0 1 tile_width tile_height tile_row_overlap
        tile_col_overlap).2.2.1 ≤ x ∧
      x < (_tile2latent_indices 0 1 tile_width tile_height tile_row_overlap
        tile_col_overlap).2.2.2 := by
    simp only [_tile2latent_indices, _tile2pixel_eq, _pixel2latent_indices,
      Nat.zero_mul, Nat.one_mul, Nat.zero_add, Nat.zero_div]
    exact ⟨Nat.zero_le y, hy, hx1,
      lt_of_lt_of_le hx2 (Nat.div_le_div_right (Nat.le_add_left _ _))⟩
  simp only [overwriteRegion]
  rw [if_pos hcond]
  simp only [_tile2latent_indices, _tile2pixel_eq, _pixel2latent_indices,
    Nat.zero_mul, Nat.one_mul, Nat.zero_add, Nat.zero_div, Nat.sub_zero]

/-- Claim C7: per-tile seed directives apply in row-major order with
last-write-wins semantics: on a 1×2 grid with positive column overlap, after
`full`-mode directives `[(0,0,seedA), (0,1,seedB)]`, every latent position in
the overlap holds exactly the value drawn from `seedB`'s stream at that
offset inside tile (0,1) — identical to what a run with only the `seedB`
directive produces, with no trace of `seedA`'s draw. -/
theorem seed_tiles_last_write_wins (noise : ℕ → ℕ → ℕ → ℝ) (p q : String)
    (tile_width tile_height tile_row_overlap tile_col_overlap seed sA sB y x : ℕ)
    (hy : y < tile_height / 8)
    (hx1 : (tile_width - tile_col_overlap) / 8 ≤ x) (hx2 : x < tile_width / 8) :
    canvasAt (initializeLatents noise [[p, q]] tile_width tile_height tile_row_overlap
        tile_col_overlap seed (some [[some sA, some sB]]) (.str "full") []) y x =
      some (noise sB y (x - (tile_width - tile_col_overlap) / 8)) ∧
    canvasAt (initializeLatents noise [[p, q]] tile_width tile_height tile_row_overlap
        tile_col_overlap seed (some [[none, some sB]]) (.str "full") []) y x =
      some (noise sB y (x - (tile_width - tile_col_overlap) / 8)) := by
  constructor
  · have h1 : initializeLatents noise [[p, q]] tile_width tile_height tile_row_overlap
        tile_col_overlap seed (some [[some sA, some sB]]) (.str "full") [] =
        .ok (overwriteRegion
          (overwriteRegion (fun y x => noise seed y x) (fun y x => noise sA y x)
            (_tile2latent_indices 0 0 tile_width tile_height tile_row_overlap
              tile_col_overlap).1
            (_tile2latent_indices 0 0 tile_width tile_height tile_row_overlap
              tile_col_overlap).2.1
            (_tile2latent_indices 0 0 tile_width tile_height tile_row_overlap
              tile_col_overlap).2.2.1
            (_tile2latent_indices 0 0 tile_width tile_height tile_row_overlap
              tile_col_overlap).2.2.2)
          (fun y x => noise sB y x)
          (_tile2latent_indices 0 1 tile_width tile_height tile_row_overlap
            tile_col_overlap).1
          (_tile2latent_indices 0 1 tile_width tile_height tile_row_overlap
            tile_col_overlap).2.1
          (_tile2latent_indices 0 1 tile_width tile_height tile_row_overlap
            tile_col_overlap).2.2.1
          (_tile2latent_indices 0 1 tile_width tile_height tile_row_overlap
            tile_col_overlap).2.2.2) := rfl
    rw [h1]
    simp only [canvasAt]
    exact congrArg some (overwriteRegion_tile01_val _ _ tile_width tile_height
      tile_row_overlap tile_col_overlap y x hy hx1 hx2)
  · have h2 : initializeLatents noise [[p, q]] tile_width tile_height tile_row_overlap
        tile_col_overlap seed (some [[none, some sB]]) (.str "full") [] =
        .ok (overwriteRegion (fun y x => noise seed y x) (fun y x => noise sB y x)
          (_tile2latent_indices 0 1 tile_width tile_height tile_row_overlap
            tile_col_overlap).1
          (_tile2latent_indices 0 1 tile_width tile_height tile_row_overlap
            tile_col_overlap).2.1
          (_tile2latent_indices 0 1 tile_width tile_height tile_row_overlap
            tile_col_overlap).2.2.1
          (_tile2latent_indices 0 1 tile_width tile_height tile_row_overlap
            tile_col_overlap).2.2.2) := rfl
    rw [h2]
    simp only [canvasAt]
    exact congrArg some (overwriteRegion_tile01_val _ _ tile_width tile_height
      tile_row_overlap tile_col_overlap y x hy hx1 hx2)

/-- Witness for C7: default geometry, seeds 1 and 2, at overlap position
(0, 32). -/
theorem seed_tiles_last_write_wins_witness :
    canvasAt (initializeLatents (fun s _ _ => (s : ℝ)) [["a", "b"]] 512 512 256 256 0
        (some [[some 1, some 2]]) (.str "full") []) 0 32 = some 2 ∧
    canvasAt (initializeLatents (fun s _ _ => (s : ℝ)) [["a", "b"]] 512 512 256 256 0
        (some [[none, some 2]]) (.str "full") []) 0 32 = some 2 := by
  have h := seed_tiles_last_write_wins (fun s _ _ => (s : ℝ)) "a" "b" 512 512 256 256 0
    1 2 0 32 (by norm_num) (by norm_num) (by norm_num)
  simpa using h

lemma applySeedRerollRegions_ok (noise : ℕ → ℕ → ℕ → ℝ)
    (regions : List (ℕ × ℕ × ℕ × ℕ × ℕ)) (latH latW : ℕ) (c : Canvas)
    (h : ∀ reg ∈ regions, rerollInBounds
      (_pixel2latent_indices reg.1 reg.2.1 reg.2.2.1 reg.2.2.2.1).1
      (_pixel2latent_indices reg.1 reg.2.1 reg.2.2.1 reg.2.2.2.1).2.1
      (_pixel2latent_indices reg.1 reg.2.1 reg.2.2.1 reg.2.2.2.1).2.2.1
      (_pixel2latent_indices reg.1 reg.2.1 reg.2.2.1 reg.2.2.2.1).2.2.2 latH latW) :
    applySeedRerollRegions noise regions latH latW c =
      .ok (applySeedRerollRegionsPure noise regions c) := by
  induction regions generalizing c with
  | nil => rfl
  | cons a l ih =>
    simp only [applySeedRerollRegions, applySeedRerollRegionsPure, List.foldlM_cons,
      List.foldl_cons]
    rw [if_pos (h a (List.mem_cons_self a l))]
    exact ih _ (fun reg hreg => h reg (List.mem_cons_of_mem a hreg))

lemma applySeedRerollRegionsPure_notmem (noise : ℕ → ℕ → ℕ → ℝ)
    (regions : List (ℕ × ℕ × ℕ × ℕ × ℕ)) (c : Canvas) (y x : ℕ)
    (h : ∀ reg ∈ regions, ¬(
      (_pixel2latent_indices reg.1 reg.2.1 reg.2.2.1 reg.2.2.2.1).1 ≤ y ∧
      y < (_pixel2latent_indices reg.1 reg.2.1 reg.2.2.1 reg.2.2.2.1).2.1 ∧
      (_pixel2latent_indices reg.1 reg.2.1 reg.2.2.1 reg.2.2.2.1).2.2.1 ≤ x ∧
      x < (_pixel2latent_indices reg.1 reg.2.1 reg.2.2.1 reg.2.2.2.1).2.2.2)) :
    applySeedRerollRegionsPure noise regions c y x = c y x := by
  induction regions generalizing c with
  | nil => rfl
  | cons a l ih =>
    simp only [applySeedRerollRegionsPure, List.foldl_cons]
    rw [show (List.foldl _ _ l : Canvas) = applySeedRerollRegionsPure noise l _ from rfl]
    rw [ih _ (fun reg hreg => h reg (List.mem_cons_of_mem a hreg))]
    simp only [overwriteRegion]
    rw [if_neg (h a (List.mem_cons_self a l))]

/-- Claim C8: reroll regions are applied after all per-tile seed directives,
in listed order: at any latent position inside a reroll region `reg` and
outside every later-listed region, the initialized canvas holds exactly the
value drawn from `reg`'s seed stream at the position's offset inside `reg` —
whatever canvas (in particular, whatever tile seeding) preceded the reroll
phase, so the later-listed region wins and no underlying tile-seed content
survives. -/
theorem reroll_regions_override (noise : ℕ → ℕ → ℕ → ℝ) (c : Canvas) (latH latW : ℕ)
    (pre post : List (ℕ × ℕ × ℕ × ℕ × ℕ)) (reg : ℕ × ℕ × ℕ × ℕ × ℕ) (y x : ℕ)
    (hb : ∀ r ∈ pre ++ reg :: post, rerollInBounds
      (_pixel2latent_indices r.1 r.2.1 r.2.2.1 r.2.2.2.1).1
      (_pixel2latent_indices r.1 r.2.1 r.2.2.1 r.2.2.2.1).2.1
      (_pixel2latent_indices r.1 r.2.1 r.2.2.1 r.2.2.2.1).2.2.1
      (_pixel2latent_indices r.1 r.2.1 r.2.2.1 r.2.2.2.1).2.2.2 latH latW)
    (hmem : (_pixel2latent_indices reg.1 reg.2.1 reg.2.2.1 reg.2.2.2.1).1 ≤ y ∧
      y < (_pixel2latent_indices reg.1 reg.2.1 reg.2.2.1 reg.2.2.2.1).2.1 ∧
      (_pixel2latent_indices reg.1 reg.2.1 reg.2.2.1 reg.2.2.2.1).2.2.1 ≤ x ∧
      x < (_pixel2latent_indices reg.1 reg.2.1 reg.2.2.1 reg.2.2.2.1).2.2.2)
    (hpost : ∀ r ∈ post, ¬(
      (_pixel2latent_indices r.1 r.2.1 r.2.2.1 r.2.2.2.1).1 ≤ y ∧
      y < (_pixel2latent_indices r.1 r.2.1 r.2.2.1 r.2.2.2.1).2.1 ∧
      (_pixel2latent_indices r.1 r.2.1 r.2.2.1 r.2.2.2.1).2.2.1 ≤ x ∧
      x < (_pixel2latent_indices r.1 r.2.1 r.2.2.1 r.2.2.2.1).2.2.2)) :
    canvasAt (applySeedRerollRegions noise (pre ++ reg :: post) latH latW c) y x =
      some (noise reg.2.2.2.2
        (y - (_pixel2latent_indices reg.1 reg.2.1 reg.2.2.1 reg.2.2.2.1).1)
        (x - (_pixel2latent_indices reg.1 reg.2.1 reg.2.2.1 reg.2.2.2.1).2.2.1)) := by
  rw [applySeedRerollRegions_ok noise _ latH latW c hb]
  simp only [canvasAt]
  have hsplit : applySeedRerollRegionsPure noise (pre ++ reg :: post) c =
      applySeedRerollRegionsPure noise post
        (overwriteRegion (applySeedRerollRegionsPure noise pre c)
          (fun y x => noise reg.2.2.2.2 y x)
          (_pixel2latent_indices reg.1 reg.2.1 reg.2.2.1 reg.2.2.2.1).1
          (_pixel2latent_indices reg.1 reg.2.1 reg.2.2.1 reg.2.2.2.1).2.1
          (_pixel2latent_indices reg.1 reg.2.1 reg.2.2.1 reg.2.2.2.1).2.2.1
          (_pixel2latent_indices reg.1 reg.2.1 reg.2.2.1 reg.2.2.2.1).2.2.2) := by
    simp only [applySeedRerollRegionsPure, List.foldl_append, List.foldl_cons]
  rw [hsplit, applySeedRerollRegionsPure_notmem noise post _ y x hpost]
  simp only [overwriteRegion]
  rw [if_pos hmem]

/-- Witness for C8: a single reroll region over the top-left 256×256 pixel
square of a 64×64-latent canvas, at latent position (0, 0). -/
theorem reroll_regions_override_witness :
    canvasAt (applySeedRerollRegions (fun s _ _ => (s : ℝ)) [(0, 256, 0, 256, 9)] 64 64
      (fun _ _ => 0)) 0 0 = some 9 := by
  have h := reroll_regions_override (fun s _ _ => (s : ℝ)) (fun _ _ => 0) 64 64
    [] [] (0, 256, 0, 256, 9) 0 0 (by decide) (by decide) (by simp)
  simpa using h

/-- Witness for C6 (amended): truncating the oversized directive grid of the
counterexample's input changes nothing. -/
theorem out_of_grid_seed_directives_ignored_witness :
    initializeLatents (fun _ _ _ => (0 : ℝ)) [["p"]] 512 512 256 256 0
      (some [[some 5, some 7]]) (.str "full") [] =
    initializeLatents (fun _ _ _ => (0 : ℝ)) [["p"]] 512 512 256 256 0
      (some (truncateGrid 1 1 [[some 5, some 7]])) (.str "full") [] :=
  out_of_grid_seed_directives_ignored (fun _ _ _ => (0 : ℝ)) [["p"]] 512 512 256 256 0
    [[some 5, some 7]] (.str "full") []
